import Mathlib

/-!
Verification of the client-side image ingestion / effect-preview / export
pipeline implemented in `src/routes/+page.svelte`.

The embedding models:
* the preview scaling computation of `drawPreview` (lines 79-85) over `ℚ`
  (JavaScript numbers modelled as exact rationals, `Math.round x = ⌊x + 1/2⌋`);
* the colour helper `withAlpha` (lines 29-37) over lists of characters;
* the sparkle-coordinate hash of `applyDummyEffect` (lines 121-128) over `ℝ`,
  with JavaScript `Math.sin` / `Math.cos` modelled by `Real.sin` / `Real.cos`
  and the JavaScript `%` operator modelled by truncated remainder;
* the component state (image registry, selection, object-URL byte-handles,
  canvas) as an explicit state machine whose operations transcribe
  `addFiles` (45-62), the file-card click handler (203), `removeAll`
  (160-167) and `downloadPreview` (134-144).  `crypto.randomUUID()` and
  `URL.createObjectURL` are modelled as fresh-counter supplies: each call
  yields a value never produced before, which is the only property used.
-/

namespace PaletteQuantizer

/-! ### Preview scaling (`drawPreview`, lines 79-85) -/

/-- `const scale = Math.min(1, maxWidth / img.width)` with `maxWidth = 1024`. -/
def drawScale (imgWidth : ℕ) : ℚ := min 1 (1024 / (imgWidth : ℚ))

/-- `const width = Math.max(1, Math.round(img.width * scale))`. -/
def drawWidth (imgWidth : ℕ) : ℤ := max 1 (round ((imgWidth : ℚ) * drawScale imgWidth))

/-- `const height = Math.max(1, Math.round(img.height * scale))`. -/
def drawHeight (imgWidth imgHeight : ℕ) : ℤ :=
  max 1 (round ((imgHeight : ℚ) * drawScale imgWidth))

/-! ### Colour helper (`withAlpha`, lines 29-37)

`withAlpha` receives a hex colour string and an alpha value and returns a CSS
`rgba(...)` string.  Strings are modelled as lists of characters; the alpha
value, which is only ever serialised into the result, is taken as an opaque
string.  JavaScript `parseInt(s, 16)` is modelled as the value of the longest
leading run of hex digits, with the convention that an unparsable string
yields `0` (in the source, `parseInt` returns `NaN` there and the subsequent
32-bit `>>`/`&` operations coerce `NaN` to `0`).  The bitwise extractions are
modelled by `Nat` shifts and masks, which agree with JavaScript's 32-bit
semantics for all values below `2 ^ 31`; every value reachable from a hex
string of at most eight digits after the padding step stays below `2 ^ 32`,
and the claims under verification only involve values below `2 ^ 24`. -/

/-- Hex-digit value accepted by `parseInt(·, 16)`: `0`-`9`, `a`-`f`, `A`-`F`. -/
def hexDigitVal (c : Char) : Option ℕ :=
  let n := c.toNat
  if 48 ≤ n ∧ n ≤ 57 then some (n - 48)
  else if 97 ≤ n ∧ n ≤ 102 then some (n - 87)
  else if 65 ≤ n ∧ n ≤ 70 then some (n - 55)
  else none

/-- Value of the longest leading run of hex digits (`parseInt(s, 16)`,
with the `NaN`-to-`0` bitwise coercion folded in). -/
def hexPrefixVal (acc : ℕ) : List Char → ℕ
  | [] => acc
  | c :: cs =>
    match hexDigitVal c with
    | some v => hexPrefixVal (16 * acc + v) cs
    | none => acc

/-- `hex.replace('#', '')`: JavaScript `String.replace` with a string pattern
removes only the first occurrence. -/
def removeFirstHash : List Char → List Char
  | [] => []
  | c :: cs => if c = '#' then cs else c :: removeFirstHash cs

/-- `withAlpha` (lines 29-37). -/
def withAlpha (hex : List Char) (alpha : String) : String :=
  let normalized := removeFirstHash hex
  let full :=
    if normalized.length = 3 then normalized.flatMap (fun c => [c, c])
    else normalized ++ List.replicate (6 - normalized.length) '0'
  let num := hexPrefixVal 0 full
  let r := (num >>> 16) &&& 255
  let g := (num >>> 8) &&& 255
  let b := num &&& 255
  "rgba(" ++ toString r ++ ", " ++ toString g ++ ", " ++ toString b ++ ", "
    ++ alpha ++ ")"

/-! ### Sparkle layer of `applyDummyEffect` (lines 119-128) -/

/-- JavaScript truncated division result, `Math.trunc (a / b)` as used by the
`%` operator: rounding toward zero. -/
noncomputable def rtrunc (x : ℝ) : ℤ := if 0 ≤ x then ⌊x⌋ else ⌈x⌉

/-- The JavaScript `%` operator on numbers: `a % b = a - b * trunc (a / b)`. -/
noncomputable def jsMod (a b : ℝ) : ℝ := a - b * rtrunc (a / b)

/-- `Math.min(1400, Math.round((width + height) * 0.2 * (0.6 + grain)))`
(line 121). -/
def sparkCount (width height : ℕ) (grain : ℚ) : ℤ :=
  min 1400 (round (((width : ℚ) + height) * 0.2 * (0.6 + grain)))

/-- `Math.abs(Math.sin(i * 12.9898 + animationSeed * 1.7) * 43758.5453) % width`
(line 123). -/
noncomputable def sparkleX (i seed width : ℕ) : ℝ :=
  jsMod |Real.sin (i * 12.9898 + seed * 1.7) * 43758.5453| width

/-- `Math.abs(Math.cos(i * 78.233 + animationSeed * 0.9) * 12345.6789) % height`
(line 124). -/
noncomputable def sparkleY (i seed height : ℕ) : ℝ :=
  jsMod |Real.cos (i * 78.233 + seed * 0.9) * 12345.6789| height

/-- The sparkle sample positions laid down by the `for` loop of lines 122-128,
in loop order. -/
noncomputable def sparkles (width height seed : ℕ) (grain : ℚ) : List (ℝ × ℝ) :=
  (List.range (sparkCount width height grain).toNat).map fun i =>
    (sparkleX i seed width, sparkleY i seed height)

/-- The sparkle x-coordinate exactly as the specification documents it:
`x = |sin(i*12.9898 + seed*1.7) * 43758.5453| mod width`. -/
noncomputable def specSparkleX (i seed width : ℕ) : ℝ :=
  jsMod |Real.sin (i * 12.9898 + seed * 1.7) * 43758.5453| width

/-- The sparkle y-coordinate exactly as the specification documents it:
`y = |cos(i*78.233 + seed*0.9) * 12345.6789| mod height`. -/
noncomputable def specSparkleY (i seed height : ℕ) : ℝ :=
  jsMod |Real.cos (i * 78.233 + seed * 0.9) * 12345.6789| height

/-! ### Component state and its operations

State machine transcribing the `<script>` block's mutable state:
`uploadedImages`, `selectedId`, `canvas` and the set of live object URLs.
Ids (from `crypto.randomUUID()`) and object URLs (from
`URL.createObjectURL`) are modelled by fresh counters `nextId` / `nextUrl`. -/

/-- The `UploadedImage` record type (lines 4-10). -/
structure UploadedImage where
  id : ℕ
  name : String
  size : ℕ
  type : String
  url : ℕ
deriving DecidableEq

/-- An input `File`: the metadata `addFiles` reads off each dropped file. -/
structure InputFile where
  name : String
  size : ℕ
  type : String
deriving DecidableEq

/-- Component state: the registry, the selection, the canvas element with its
pixel dimensions (`none` before `bind:this` attaches it), the live object
URLs, and the fresh-supply counters. -/
structure AppState where
  uploadedImages : List UploadedImage
  selectedId : Option ℕ
  canvas : Option (ℤ × ℤ)
  liveUrls : List ℕ
  nextId : ℕ
  nextUrl : ℕ
deriving DecidableEq

/-- Initial state (lines 12-14): no images, no selection, no canvas yet. -/
def initState : AppState :=
  { uploadedImages := [], selectedId := none, canvas := none, liveUrls := [],
    nextId := 0, nextUrl := 0 }

/-- The records built by the `Array.from(files).forEach` loop of lines 48-57:
one fresh id and one fresh object URL per file, in order. -/
def newImages (idBase urlBase : ℕ) : List InputFile → List UploadedImage
  | [] => []
  | f :: fs =>
    { id := idBase, name := f.name, size := f.size, type := f.type,
      url := urlBase } :: newImages (idBase + 1) (urlBase + 1) fs

/-- `addFiles` (lines 45-62): early-return on an empty file list, append the
new records, register their object URLs, and select the first new record if
nothing was selected (`if (!selectedId && nextImages.length)`). -/
def addFiles (files : List InputFile) (s : AppState) : AppState :=
  if files.isEmpty then s
  else
    let nextImages := newImages s.nextId s.nextUrl files
    { s with
      uploadedImages := s.uploadedImages ++ nextImages
      liveUrls := s.liveUrls ++ nextImages.map (·.url)
      selectedId :=
        match s.selectedId, nextImages with
        | none, img :: _ => some img.id
        | sel, _ => sel
      nextId := s.nextId + files.length
      nextUrl := s.nextUrl + files.length }

/-- `selectedImage` (line 69): `uploadedImages.find((image) => image.id ===
selectedId)`. -/
def selectedImage (s : AppState) : Option UploadedImage :=
  s.uploadedImages.find? fun img => s.selectedId = some img.id

/-- The file-card click handler (line 203): `selectedId = image.id`. -/
def selectImage (img : UploadedImage) (s : AppState) : AppState :=
  { s with selectedId := some img.id }

/-- `removeAll` (lines 160-167): revoke every image's object URL, clear the
registry and the selection, and zero the canvas if it is attached. -/
def removeAll (s : AppState) : AppState :=
  { s with
    liveUrls := s.uploadedImages.foldl (fun acc img => acc.erase img.url) s.liveUrls
    uploadedImages := []
    selectedId := none
    canvas := s.canvas.map fun _ => (0, 0) }

/-- `bind:this={canvas}` attaching the canvas element after mount; a fresh
HTML canvas has the default 300 by 150 pixel size. -/
def mountCanvas (s : AppState) : AppState := { s with canvas := some (300, 150) }

/-- `downloadPreview` (lines 134-144); `blobOk` tells whether
`canvas.toBlob` produced a blob.  Returns the successor state and the list
of triggered downloads (file names).  On success a transient object URL is
created for the blob and revoked again after the click. -/
def downloadPreview (blobOk : Bool) (s : AppState) : AppState × List String :=
  match s.canvas, selectedImage s with
  | none, _ => (s, [])
  | some _, none => (s, [])
  | some _, some img =>
    if blobOk then
      ({ s with liveUrls := (s.liveUrls ++ [s.nextUrl]).erase s.nextUrl,
                nextUrl := s.nextUrl + 1 },
        [img.name ++ ".png"])
    else (s, [])

/-- States reachable from the initial state by the user-triggered operations:
file ingestion, clicking a listed file card, reset, canvas attachment, and
preview export. -/
inductive Reachable : AppState → Prop
  | init : Reachable initState
  | addFiles (files : List InputFile) {s : AppState} :
      Reachable s → Reachable (addFiles files s)
  | select (img : UploadedImage) {s : AppState} (hmem : img ∈ s.uploadedImages) :
      Reachable s → Reachable (selectImage img s)
  | removeAll {s : AppState} : Reachable s → Reachable (removeAll s)
  | mount {s : AppState} : Reachable s → Reachable (mountCanvas s)
  | download (blobOk : Bool) {s : AppState} :
      Reachable s → Reachable (downloadPreview blobOk s).1

/-- The state invariant: live object URLs are exactly the registered images'
URLs in registration order, all URLs are below the fresh counter, an empty
selection means an empty registry, and a non-empty selection references a
registered image. -/
def Inv (s : AppState) : Prop :=
  s.liveUrls = s.uploadedImages.map (·.url)
  ∧ (∀ img ∈ s.uploadedImages, img.url < s.nextUrl)
  ∧ (s.selectedId = none → s.uploadedImages = [])
  ∧ (∀ i : ℕ, s.selectedId = some i → i ∈ s.uploadedImages.map (·.id))

lemma newImages_length (fs : List InputFile) :
    ∀ a b : ℕ, (newImages a b fs).length = fs.length := by
  induction fs with
  | nil => intro a b; simp [newImages]
  | cons f t ih => intro a b; simp [newImages, ih]

lemma newImages_url_lt (fs : List InputFile) :
    ∀ a b : ℕ, ∀ img ∈ newImages a b fs, img.url < b + fs.length := by
  induction fs with
  | nil => intro a b; simp [newImages]
  | cons f t ih =>
    intro a b img hmem
    simp only [newImages, List.mem_cons] at hmem
    rcases hmem with rfl | hmem
    · simp
    · have := ih (a + 1) (b + 1) img hmem
      simp only [List.length_cons]
      omega

lemma foldl_erase_urls (l : List UploadedImage) :
    l.foldl (fun acc img => acc.erase img.url) (l.map (·.url)) = [] := by
  induction l with
  | nil => simp
  | cons a t ih => simpa [List.erase_cons_head] using ih

lemma nextUrl_not_live {s : AppState} (h : Inv s) : s.nextUrl ∉ s.liveUrls := by
  obtain ⟨h1, h2, -, -⟩ := h
  intro hmem
  rw [h1, List.mem_map] at hmem
  obtain ⟨img, hi, hurl⟩ := hmem
  exact absurd (hurl ▸ h2 img hi) (lt_irrefl _)

lemma inv_initState : Inv initState := by
  refine ⟨rfl, ?_, fun _ => rfl, ?_⟩ <;> simp [initState]

lemma inv_addFiles (files : List InputFile) {s : AppState} (h : Inv s) :
    Inv (addFiles files s) := by
  obtain ⟨h1, h2, h3, h4⟩ := h
  cases files with
  | nil => simpa [addFiles] using ⟨h1, h2, h3, h4⟩
  | cons f fs =>
    simp only [addFiles, List.isEmpty_cons, Bool.false_eq_true, if_false]
    refine ⟨?_, ?_, ?_, ?_⟩
    · simp [h1]
    · intro img hmem
      simp only [List.mem_append] at hmem
      rcases hmem with hmem | hmem
      · have := h2 img hmem; simp only [List.length_cons]; omega
      · have := newImages_url_lt (f :: fs) s.nextId s.nextUrl img hmem
        simpa using this
    · cases hsel : s.selectedId with
      | none => simp [newImages]
      | some j => simp [newImages]
    · intro i hi
      cases hsel : s.selectedId with
      | none =>
        rw [hsel] at hi
        simp only [newImages] at hi ⊢
        simp only [Option.some.injEq] at hi
        simp [← hi]
      | some j =>
        rw [hsel] at hi
        simp only [newImages, Option.some.injEq] at hi
        rw [List.map_append, List.mem_append]
        exact Or.inl (hi ▸ h4 j hsel)

lemma inv_selectImage (img : UploadedImage) {s : AppState}
    (hmem : img ∈ s.uploadedImages) (h : Inv s) : Inv (selectImage img s) := by
  obtain ⟨h1, h2, h3, h4⟩ := h
  refine ⟨h1, h2, ?_, ?_⟩
  · intro hnone; simp [selectImage] at hnone
  · intro i hi
    simp only [selectImage, Option.some.injEq] at hi
    subst hi
    exact List.mem_map_of_mem _ hmem

lemma inv_removeAll {s : AppState} (h : Inv s) : Inv (removeAll s) := by
  obtain ⟨h1, h2, h3, h4⟩ := h
  refine ⟨?_, by simp [removeAll], by simp [removeAll], by simp [removeAll]⟩
  simp only [removeAll, h1]
  exact foldl_erase_urls s.uploadedImages

lemma inv_mountCanvas {s : AppState} (h : Inv s) : Inv (mountCanvas s) := h

lemma downloadPreview_liveUrls {s : AppState} (h : Inv s) (blobOk : Bool) :
    (downloadPreview blobOk s).1.liveUrls = s.liveUrls := by
  unfold downloadPreview
  cases hc : s.canvas with
  | none => rfl
  | some d =>
    cases hsel : selectedImage s with
    | none => rfl
    | some img =>
      cases blobOk with
      | false => rfl
      | true =>
        have hfresh := nextUrl_not_live h
        rw [List.erase_append_right _ hfresh, List.erase_cons_head, List.append_nil]
        simp

lemma downloadPreview_state {s : AppState} (blobOk : Bool) :
    (downloadPreview blobOk s).1.uploadedImages = s.uploadedImages
    ∧ (downloadPreview blobOk s).1.selectedId = s.selectedId
    ∧ s.nextUrl ≤ (downloadPreview blobOk s).1.nextUrl := by
  unfold downloadPreview
  cases s.canvas with
  | none => exact ⟨rfl, rfl, le_refl _⟩
  | some d =>
    cases selectedImage s with
    | none => exact ⟨rfl, rfl, le_refl _⟩
    | some img =>
      cases blobOk with
      | false => exact ⟨rfl, rfl, le_refl _⟩
      | true => exact ⟨rfl, rfl, Nat.le_succ _⟩

lemma inv_downloadPreview (blobOk : Bool) {s : AppState} (h : Inv s) :
    Inv (downloadPreview blobOk s).1 := by
  obtain ⟨himg, hsel, hurl⟩ := downloadPreview_state (s := s) blobOk
  obtain ⟨h1, h2, h3, h4⟩ := h
  refine ⟨?_, ?_, ?_, ?_⟩
  · rw [downloadPreview_liveUrls ⟨h1, h2, h3, h4⟩ blobOk, himg, h1]
  · intro img hmem
    rw [himg] at hmem
    exact lt_of_lt_of_le (h2 img hmem) hurl
  · intro hnone; rw [hsel] at hnone; rw [himg]; exact h3 hnone
  · intro i hi; rw [hsel] at hi; rw [himg]; exact h4 i hi

/-- Every reachable state satisfies the invariant. -/
lemma inv_of_reachable {s : AppState} (h : Reachable s) : Inv s := by
  induction h with
  | init => exact inv_initState
  | addFiles files _ ih => exact inv_addFiles files ih
  | select img hmem _ ih => exact inv_selectImage img hmem ih
  | removeAll _ ih => exact inv_removeAll ih
  | mount _ ih => exact inv_mountCanvas ih
  | download blobOk _ ih => exact inv_downloadPreview blobOk ih

/-! ### Ingest / clear-all traces (claim C7) -/

/-- The two registry-level operations quantified over by claim C7. -/
inductive RegOp where
  | ingest (files : List InputFile)
  | clear
deriving DecidableEq

/-- Apply one registry operation. -/
def applyRegOp (s : AppState) : RegOp → AppState
  | .ingest files => addFiles files s
  | .clear => removeAll s

/-- Run a sequence of registry operations from the initial state. -/
def runRegOps (ops : List RegOp) : AppState := ops.foldl applyRegOp initState

/-- Whether an operation is an ingestion call. -/
def isIngest : RegOp → Bool
  | .ingest _ => true
  | .clear => false

/-- Number of files passed to an operation. -/
def opFileCount : RegOp → ℕ
  | .ingest files => files.length
  | .clear => 0

/-- The total number of files passed to ingestion calls occurring after the
last clear-all of the sequence (all ingestion calls if no clear-all occurs):
the longest clear-free suffix is the reversed longest clear-free prefix of
the reversed sequence. -/
def ingestedAfterLastClear (ops : List RegOp) : ℕ :=
  ((ops.reverse.takeWhile isIngest).map opFileCount).sum

lemma addFiles_images_length (files : List InputFile) (s : AppState) :
    (addFiles files s).uploadedImages.length =
      s.uploadedImages.length + files.length := by
  cases files with
  | nil => simp [addFiles]
  | cons f fs =>
    simp [addFiles, newImages_length]

lemma addFiles_liveUrls_length (files : List InputFile) (s : AppState) :
    (addFiles files s).liveUrls.length = s.liveUrls.length + files.length := by
  cases files with
  | nil => simp [addFiles]
  | cons f fs =>
    simp [addFiles, newImages_length]

/-! ### Claim theorems for the registry state machine -/

/-- C3: for a non-empty ingested batch, an empty registry beforehand makes the
first image of the batch the selection afterwards, and a non-empty registry
beforehand leaves the selection unchanged. -/
theorem ingest_selection_policy (files : List InputFile) {s : AppState}
    (hr : Reachable s) (hne : files ≠ []) :
    (s.uploadedImages = [] →
      (addFiles files s).selectedId =
        (newImages s.nextId s.nextUrl files).head?.map (·.id))
    ∧ (s.uploadedImages ≠ [] → (addFiles files s).selectedId = s.selectedId) := by
  obtain ⟨h1, h2, h3, h4⟩ := inv_of_reachable hr
  cases files with
  | nil => exact absurd rfl hne
  | cons f fs =>
    constructor
    · intro hempty
      cases hsel : s.selectedId with
      | none => simp [addFiles, hsel, newImages]
      | some j =>
        have := h4 j hsel
        rw [hempty] at this
        simp at this
    · intro hnonempty
      cases hsel : s.selectedId with
      | none => exact absurd (h3 hsel) hnonempty
      | some j => simp [addFiles, hsel, newImages]

/-- Witness for `ingest_selection_policy` at the initial state and a
one-file batch. -/
theorem ingest_selection_policy_check :
    ([({ name := "a.png", size := 3, type := "image/png" } : InputFile)] ≠ [])
    ∧ ((initState.uploadedImages = [] →
        (addFiles [{ name := "a.png", size := 3, type := "image/png" }]
            initState).selectedId =
          (newImages initState.nextId initState.nextUrl
              [{ name := "a.png", size := 3, type := "image/png" }]).head?.map (·.id))
      ∧ (initState.uploadedImages ≠ [] →
        (addFiles [{ name := "a.png", size := 3, type := "image/png" }]
            initState).selectedId = initState.selectedId)) :=
  ⟨by simp,
    ingest_selection_policy _ Reachable.init (by simp)⟩

/-- C4: `removeAll` leaves no live byte-handle, empties the registry, clears
the selection, and zeroes the drawing surface. -/
theorem removeAll_releases_everything {s : AppState} (hr : Reachable s) :
    (removeAll s).liveUrls = []
    ∧ (removeAll s).uploadedImages = []
    ∧ (removeAll s).selectedId = none
    ∧ ∀ d ∈ (removeAll s).canvas, d = ((0 : ℤ), (0 : ℤ)) := by
  obtain ⟨h1, h2, h3, h4⟩ := inv_of_reachable hr
  refine ⟨?_, rfl, rfl, ?_⟩
  · show s.uploadedImages.foldl _ s.liveUrls = []
    rw [h1]
    exact foldl_erase_urls s.uploadedImages
  · intro d hd
    cases hc : s.canvas <;> simp [removeAll, hc] at hd
    simpa using hd.symm

/-- Witness for `removeAll_releases_everything` after one ingestion. -/
theorem removeAll_releases_everything_check :
    (removeAll (addFiles [{ name := "a.png", size := 3, type := "image/png" }]
        initState)).liveUrls = []
    ∧ (removeAll (addFiles [{ name := "a.png", size := 3, type := "image/png" }]
        initState)).uploadedImages = []
    ∧ (removeAll (addFiles [{ name := "a.png", size := 3, type := "image/png" }]
        initState)).selectedId = none
    ∧ ∀ d ∈ (removeAll (addFiles [{ name := "a.png", size := 3, type := "image/png" }]
        initState)).canvas, d = ((0 : ℤ), (0 : ℤ)) :=
  removeAll_releases_everything (Reachable.addFiles _ Reachable.init)

/-- C5: in every reachable state the selection is either empty or the id of a
currently-registered image. -/
theorem selection_references_registered {s : AppState} (hr : Reachable s) :
    s.selectedId = none
    ∨ ∃ img ∈ s.uploadedImages, s.selectedId = some img.id := by
  obtain ⟨-, -, -, h4⟩ := inv_of_reachable hr
  cases hsel : s.selectedId with
  | none => exact Or.inl rfl
  | some i =>
    obtain ⟨img, hmem, hid⟩ := List.mem_map.mp (h4 i hsel)
    exact Or.inr ⟨img, hmem, by rw [hid]⟩

/-- Witness for `selection_references_registered` after one ingestion. -/
theorem selection_references_registered_check :
    (addFiles [{ name := "a.png", size := 3, type := "image/png" }]
        initState).selectedId = none
    ∨ ∃ img ∈ (addFiles [{ name := "a.png", size := 3, type := "image/png" }]
        initState).uploadedImages,
        (addFiles [{ name := "a.png", size := 3, type := "image/png" }]
            initState).selectedId = some img.id :=
  selection_references_registered (Reachable.addFiles _ Reachable.init)

/-- C6: in every reachable state the live byte-handles are in one-to-one
correspondence with the registered records; ingestion adds one handle per
file, `removeAll` releases all handles of the removed records, and a preview
export leaves the live handles unchanged (its transient handle is revoked
before it returns). -/
theorem live_handles_match_records {s : AppState} (hr : Reachable s) :
    s.liveUrls.length = s.uploadedImages.length
    ∧ (∀ files : List InputFile,
        (addFiles files s).liveUrls.length = s.liveUrls.length + files.length)
    ∧ (removeAll s).liveUrls = []
    ∧ (∀ blobOk : Bool, (downloadPreview blobOk s).1.liveUrls = s.liveUrls) := by
  have hinv := inv_of_reachable hr
  obtain ⟨h1, h2, h3, h4⟩ := hinv
  refine ⟨?_, ?_, ?_, ?_⟩
  · rw [h1, List.length_map]
  · intro files; exact addFiles_liveUrls_length files s
  · show s.uploadedImages.foldl _ s.liveUrls = []
    rw [h1]
    exact foldl_erase_urls s.uploadedImages
  · intro blobOk; exact downloadPreview_liveUrls ⟨h1, h2, h3, h4⟩ blobOk

/-- Witness for `live_handles_match_records` after one ingestion. -/
theorem live_handles_match_records_check :
    (addFiles [{ name := "a.png", size := 3, type := "image/png" }]
        initState).liveUrls.length =
      (addFiles [{ name := "a.png", size := 3, type := "image/png" }]
        initState).uploadedImages.length
    ∧ (∀ files : List InputFile,
        (addFiles files (addFiles [{ name := "a.png", size := 3, type := "image/png" }]
            initState)).liveUrls.length =
          (addFiles [{ name := "a.png", size := 3, type := "image/png" }]
              initState).liveUrls.length + files.length)
    ∧ (removeAll (addFiles [{ name := "a.png", size := 3, type := "image/png" }]
        initState)).liveUrls = []
    ∧ (∀ blobOk : Bool,
        (downloadPreview blobOk (addFiles [{ name := "a.png", size := 3, type := "image/png" }]
            initState)).1.liveUrls =
          (addFiles [{ name := "a.png", size := 3, type := "image/png" }]
              initState).liveUrls) :=
  live_handles_match_records (Reachable.addFiles _ Reachable.init)

/-- C7: after any sequence of ingest and clear-all operations, the number of
registered images equals the total number of files passed to ingestion calls
after the last clear-all (all of them if no clear-all occurred). -/
theorem registry_count_after_trace (ops : List RegOp) :
    (runRegOps ops).uploadedImages.length = ingestedAfterLastClear ops := by
  suffices h : ∀ (ops : List RegOp) (s : AppState),
      (ops.foldl applyRegOp s).uploadedImages.length =
        ((ops.reverse.takeWhile isIngest).map opFileCount).sum
          + (if ops.reverse.takeWhile isIngest = ops.reverse
             then s.uploadedImages.length else 0) by
    have := h ops initState
    simpa [runRegOps, ingestedAfterLastClear, initState] using this
  intro ops
  induction ops using List.reverseRecOn with
  | nil => intro s; simp
  | append_singleton ops op ih =>
    intro s
    rw [List.foldl_append, List.foldl_cons, List.foldl_nil, List.reverse_append]
    cases op with
    | ingest files =>
      simp only [applyRegOp, List.reverse_cons, List.reverse_nil, List.nil_append,
        List.singleton_append, List.takeWhile, isIngest]
      rw [addFiles_images_length, ih s]
      by_cases hall : ops.reverse.takeWhile isIngest = ops.reverse <;>
        simp [hall, opFileCount, List.map_cons, List.sum_cons] <;> omega
    | clear =>
      simp only [applyRegOp, List.reverse_cons, List.reverse_nil, List.nil_append,
        List.singleton_append, List.takeWhile, isIngest]
      have : (removeAll (ops.foldl applyRegOp s)).uploadedImages = [] := rfl
      simp [this]

/-- C8: the preview export triggers no download and changes nothing when no
image is selected or when surface serialisation yields no blob; on success it
triggers exactly one download, named after the selected image with the
`.png` suffix appended. -/
theorem export_download_policy {s : AppState} (b : Bool) (hr : Reachable s) :
    (selectedImage s = none → downloadPreview b s = (s, []))
    ∧ downloadPreview false s = (s, [])
    ∧ (∀ img : UploadedImage, s.canvas ≠ none → selectedImage s = some img →
        (downloadPreview true s).2 = [img.name ++ ".png"]
        ∧ (downloadPreview true s).1.liveUrls = s.liveUrls
        ∧ (downloadPreview true s).1.uploadedImages = s.uploadedImages
        ∧ (downloadPreview true s).1.selectedId = s.selectedId) := by
  refine ⟨?_, ?_, ?_⟩
  · intro hnone
    unfold downloadPreview
    cases s.canvas with
    | none => rfl
    | some d => rw [hnone]
  · unfold downloadPreview
    cases s.canvas with
    | none => rfl
    | some d =>
      cases selectedImage s with
      | none => rfl
      | some img => simp
  · intro img hc hsel
    refine ⟨?_, downloadPreview_liveUrls (inv_of_reachable hr) true,
      (downloadPreview_state true).1, (downloadPreview_state true).2.1⟩
    unfold downloadPreview
    cases hcv : s.canvas with
    | none => exact absurd hcv hc
    | some d => rw [hsel]; simp

/-- Witness for `export_download_policy`: after ingesting one file and
attaching the canvas, a successful serialisation downloads `a.png.png`. -/
theorem export_download_policy_check :
    (mountCanvas (addFiles [{ name := "a.png", size := 3, type := "image/png" }]
        initState)).canvas ≠ none
    ∧ selectedImage (mountCanvas
        (addFiles [{ name := "a.png", size := 3, type := "image/png" }] initState)) =
      some { id := 0, name := "a.png", size := 3, type := "image/png", url := 0 }
    ∧ (downloadPreview true (mountCanvas
        (addFiles [{ name := "a.png", size := 3, type := "image/png" }]
          initState))).2 = ["a.png" ++ ".png"] := by
  have hsel : selectedImage (mountCanvas
      (addFiles [{ name := "a.png", size := 3, type := "image/png" }] initState)) =
      some { id := 0, name := "a.png", size := 3, type := "image/png", url := 0 } := rfl
  refine ⟨by simp [mountCanvas], hsel, ?_⟩
  have h := (export_download_policy true
      (Reachable.mount (Reachable.addFiles
        [{ name := "a.png", size := 3, type := "image/png" }] Reachable.init))).2.2
      { id := 0, name := "a.png", size := 3, type := "image/png", url := 0 }
      (by simp [mountCanvas]) hsel
  exact h.1

/-! ### Claim theorem for the preview scaling -/

/-- C2: the computed surface dimensions are at least 1, the width is at most
1024, the scale is exactly 1 whenever the original width is at most 1024 (so
both dimensions are preserved), and a 2000 by 1000 image yields a 1024 by 512
surface. -/
theorem preview_scaling_bounds (imgWidth imgHeight : ℕ)
    (hw : 1 ≤ imgWidth) (hh : 1 ≤ imgHeight) :
    1 ≤ drawWidth imgWidth
    ∧ 1 ≤ drawHeight imgWidth imgHeight
    ∧ drawWidth imgWidth ≤ 1024
    ∧ (imgWidth ≤ 1024 →
        drawScale imgWidth = 1
        ∧ drawWidth imgWidth = imgWidth
        ∧ drawHeight imgWidth imgHeight = imgHeight)
    ∧ drawWidth 2000 = 1024
    ∧ drawHeight 2000 1000 = 512 := by
  have hw0 : (0 : ℚ) < imgWidth := by exact_mod_cast hw
  have hsmall : imgWidth ≤ 1024 →
      drawScale imgWidth = 1
      ∧ drawWidth imgWidth = imgWidth
      ∧ drawHeight imgWidth imgHeight = imgHeight := by
    intro hle
    have hscale : drawScale imgWidth = 1 := by
      unfold drawScale
      apply min_eq_left
      rw [le_div_iff₀ hw0, one_mul]
      exact_mod_cast hle
    refine ⟨hscale, ?_, ?_⟩
    · unfold drawWidth
      rw [hscale, mul_one, round_natCast]
      exact max_eq_right (by exact_mod_cast hw)
    · unfold drawHeight
      rw [hscale, mul_one, round_natCast]
      exact max_eq_right (by exact_mod_cast hh)
  have h1024 : round ((1024 : ℚ)) = (1024 : ℤ) := by
    have h := round_natCast (α := ℚ) 1024
    exact_mod_cast h
  have hbig : 1024 < imgWidth → drawWidth imgWidth = 1024 := by
    intro hgt
    have hscale : drawScale imgWidth = 1024 / imgWidth := by
      unfold drawScale
      apply min_eq_right
      rw [div_le_one hw0]
      exact_mod_cast hgt.le
    unfold drawWidth
    rw [hscale, mul_comm, div_mul_cancel₀ _ (ne_of_gt hw0), h1024]
    norm_num
  have hscale2000 : drawScale 2000 = 64 / 125 := by
    unfold drawScale
    rw [min_eq_right] <;> norm_num
  have hW2000 : drawWidth 2000 = 1024 := by
    unfold drawWidth
    rw [hscale2000]
    have e : ((2000 : ℕ) : ℚ) * (64 / 125) = ((1024 : ℕ) : ℚ) := by norm_num
    rw [e, round_natCast]
    norm_num
  have hH2000 : drawHeight 2000 1000 = 512 := by
    unfold drawHeight
    rw [hscale2000]
    have e : ((1000 : ℕ) : ℚ) * (64 / 125) = ((512 : ℕ) : ℚ) := by norm_num
    rw [e, round_natCast]
    norm_num
  refine ⟨le_max_left _ _, le_max_left _ _, ?_, hsmall, hW2000, hH2000⟩
  by_cases hle : imgWidth ≤ 1024
  · rw [(hsmall hle).2.1]; exact_mod_cast hle
  · rw [hbig (not_le.mp hle)]

/-- Witness for `preview_scaling_bounds` at a 2000 by 1000 image. -/
theorem preview_scaling_bounds_check :
    1 ≤ 2000 ∧ 1 ≤ 1000
    ∧ (1 ≤ drawWidth 2000
      ∧ 1 ≤ drawHeight 2000 1000
      ∧ drawWidth 2000 ≤ 1024
      ∧ (2000 ≤ 1024 →
          drawScale 2000 = 1
          ∧ drawWidth 2000 = 2000
          ∧ drawHeight 2000 1000 = 1000)
      ∧ drawWidth 2000 = 1024
      ∧ drawHeight 2000 1000 = 512) :=
  ⟨by decide, by decide, preview_scaling_bounds 2000 1000 (by decide) (by decide)⟩

/-! ### Claim theorem for `withAlpha` -/

lemma hexDigitVal_lt {c : Char} {v : ℕ} (h : hexDigitVal c = some v) : v < 16 := by
  simp only [hexDigitVal] at h
  split_ifs at h with h1 h2 h3 <;> simp only [Option.some.injEq] at h <;> omega

lemma withAlpha_six_digits (a : String) (d1 d2 d3 d4 d5 d6 : Char) :
    withAlpha ['#', d1, d2, d3, d4, d5, d6] a =
      "rgba(" ++ toString ((hexPrefixVal 0 [d1, d2, d3, d4, d5, d6] >>> 16) &&& 255)
        ++ ", " ++ toString ((hexPrefixVal 0 [d1, d2, d3, d4, d5, d6] >>> 8) &&& 255)
        ++ ", " ++ toString (hexPrefixVal 0 [d1, d2, d3, d4, d5, d6] &&& 255)
        ++ ", " ++ a ++ ")" := by
  simp [withAlpha, removeFirstHash]

/-- C10: on a `#`-prefixed six-digit hex colour, `withAlpha` returns
`rgba(r, g, b, a)` with `r`, `g`, `b` the decimal values of the three hex
pairs, and a three-digit hex colour behaves exactly like its six-digit
expansion obtained by doubling each digit. -/
theorem withAlpha_semantics (a : String) (d1 d2 d3 d4 d5 d6 : Char)
    (v1 v2 v3 v4 v5 v6 : ℕ)
    (h1 : hexDigitVal d1 = some v1) (h2 : hexDigitVal d2 = some v2)
    (h3 : hexDigitVal d3 = some v3) (h4 : hexDigitVal d4 = some v4)
    (h5 : hexDigitVal d5 = some v5) (h6 : hexDigitVal d6 = some v6) :
    withAlpha ['#', d1, d2, d3, d4, d5, d6] a =
      "rgba(" ++ toString (16 * v1 + v2) ++ ", " ++ toString (16 * v3 + v4)
        ++ ", " ++ toString (16 * v5 + v6) ++ ", " ++ a ++ ")"
    ∧ ∀ e1 e2 e3 : Char,
        withAlpha ['#', e1, e2, e3] a = withAlpha ['#', e1, e1, e2, e2, e3, e3] a := by
  constructor
  · have hb1 := hexDigitVal_lt h1
    have hb2 := hexDigitVal_lt h2
    have hb3 := hexDigitVal_lt h3
    have hb4 := hexDigitVal_lt h4
    have hb5 := hexDigitVal_lt h5
    have hb6 := hexDigitVal_lt h6
    have hN : hexPrefixVal 0 [d1, d2, d3, d4, d5, d6] =
        1048576 * v1 + 65536 * v2 + 4096 * v3 + 256 * v4 + 16 * v5 + v6 := by
      simp only [hexPrefixVal, h1, h2, h3, h4, h5, h6]
      ring
    have h255 : (255 : ℕ) = 2 ^ 8 - 1 := by norm_num
    have er : (hexPrefixVal 0 [d1, d2, d3, d4, d5, d6] >>> 16) &&& 255
        = 16 * v1 + v2 := by
      rw [h255, Nat.and_pow_two_sub_one_eq_mod, Nat.shiftRight_eq_div_pow, hN]
      omega
    have eg : (hexPrefixVal 0 [d1, d2, d3, d4, d5, d6] >>> 8) &&& 255
        = 16 * v3 + v4 := by
      rw [h255, Nat.and_pow_two_sub_one_eq_mod, Nat.shiftRight_eq_div_pow, hN]
      omega
    have eb : hexPrefixVal 0 [d1, d2, d3, d4, d5, d6] &&& 255 = 16 * v5 + v6 := by
      rw [h255, Nat.and_pow_two_sub_one_eq_mod, hN]
      omega
    rw [withAlpha_six_digits, er, eg, eb]
  · intro e1 e2 e3
    simp [withAlpha, removeFirstHash]

/-- Witness for `withAlpha_semantics` at the default tint `#7c3aed` and
alpha string `0.5`. -/
theorem withAlpha_semantics_check :
    hexDigitVal '7' = some 7 ∧ hexDigitVal 'c' = some 12
    ∧ hexDigitVal '3' = some 3 ∧ hexDigitVal 'a' = some 10
    ∧ hexDigitVal 'e' = some 14 ∧ hexDigitVal 'd' = some 13
    ∧ (withAlpha ['#', '7', 'c', '3', 'a', 'e', 'd'] "0.5" =
        "rgba(" ++ toString (16 * 7 + 12) ++ ", " ++ toString (16 * 3 + 10)
          ++ ", " ++ toString (16 * 14 + 13) ++ ", " ++ "0.5" ++ ")"
      ∧ ∀ e1 e2 e3 : Char,
          withAlpha ['#', e1, e2, e3] "0.5" =
            withAlpha ['#', e1, e1, e2, e2, e3, e3] "0.5") :=
  ⟨by decide, by decide, by decide, by decide, by decide, by decide,
    withAlpha_semantics "0.5" '7' 'c' '3' 'a' 'e' 'd' 7 12 3 10 14 13
      (by decide) (by decide) (by decide) (by decide) (by decide) (by decide)⟩

/-! ### Claim theorems for the sparkle layer -/

/-- C1: every sparkle sample the render loop lays down has exactly the
documented hash coordinates, so the coordinates of sample `i` are a pure
function of `(i, width, height, seed)` and re-rendering with the same
parameters reproduces them. -/
theorem sparkle_coordinates_pure (width height seed i : ℕ) (grain : ℚ)
    (_hw : 1 ≤ width) (_hh : 1 ≤ height)
    (hi : i < (sparkCount width height grain).toNat) :
    (sparkles width height seed grain)[i]? =
      some (specSparkleX i seed width, specSparkleY i seed height) := by
  unfold sparkles
  rw [List.getElem?_map, List.getElem?_range hi]
  rfl

/-- Witness for `sparkle_coordinates_pure` on a 100 by 100 surface. -/
theorem sparkle_coordinates_pure_check :
    0 < (sparkCount 100 100 0).toNat
    ∧ (sparkles 100 100 0 0)[0]? =
        some (specSparkleX 0 0 100, specSparkleY 0 0 100) := by
  have hc : sparkCount 100 100 0 = 24 := by
    unfold sparkCount
    norm_num [round_ofNat]
  have hpos : 0 < (sparkCount 100 100 0).toNat := by
    rw [hc]
    norm_num
  exact ⟨hpos, sparkle_coordinates_pure 100 100 0 0 0 (by norm_num) (by norm_num) hpos⟩

/-- Real part of the degree-9 Taylor partial sum of `exp (0.9 i)`. -/
lemma cos09_taylor_re :
    (∑ m ∈ Finset.range 10, (((0.9:ℝ):ℂ) * Complex.I) ^ m / m.factorial).re
    = 1 - 0.81/2 + 0.6561/24 - 0.531441/720 + 0.43046721/40320 := by
  simp only [Finset.sum_range_succ, Finset.range_zero, Finset.sum_empty, Nat.factorial]
  push_cast
  simp only [mul_pow, Complex.div_re, Complex.add_re, Complex.mul_re, Complex.I_re,
    Complex.I_im, Complex.ofReal_re, Complex.ofReal_im, Complex.normSq_apply]
  norm_num [pow_succ]

/-- Numeric bracketing of `cos 0.9` tight enough to separate the two sparkle
y-coordinates, obtained from the Taylor remainder bound of the complex
exponential. -/
lemma cos09_bounds : (0.6216 : ℝ) ≤ Real.cos 0.9 ∧ Real.cos 0.9 ≤ 0.62162 := by
  have habs : Complex.abs (((0.9:ℝ):ℂ) * Complex.I) = 0.9 := by
    rw [map_mul, Complex.abs_I, Complex.abs_ofReal, mul_one]
    norm_num
  have hb := Complex.exp_bound (x := ((0.9:ℝ):ℂ) * Complex.I) (by rw [habs]; norm_num)
    (n := 10) (by norm_num)
  rw [habs] at hb
  have hre : (Complex.exp (((0.9:ℝ):ℂ) * Complex.I)).re = Real.cos 0.9 :=
    Complex.exp_ofReal_mul_I_re 0.9
  have key : |Real.cos 0.9 - (1 - 0.81/2 + 0.6561/24 - 0.531441/720 + 0.43046721/40320)|
      ≤ (0.9:ℝ) ^ 10 * ((11:ℝ) * ((3628800 * 10 : ℕ) : ℝ)⁻¹) := by
    rw [← hre, ← cos09_taylor_re, ← Complex.sub_re]
    refine le_trans (Complex.abs_re_le_abs _) (le_trans hb ?_)
    norm_num [Nat.factorial]
  rw [abs_sub_le_iff] at key
  constructor
  · nlinarith [key.1, key.2]
  · nlinarith [key.1, key.2]

/-- For a non-negative dividend and a natural divisor, the JavaScript `%`
operator preserves the fractional part. -/
lemma jsMod_fract (a : ℝ) (h : ℕ) (ha : 0 ≤ a) :
    Int.fract (jsMod a h) = Int.fract a := by
  unfold jsMod rtrunc
  rw [if_pos (div_nonneg ha (Nat.cast_nonneg h))]
  have hcast : (h : ℝ) * ((⌊a / h⌋ : ℤ) : ℝ) = (((h : ℤ) * ⌊a / h⌋ : ℤ) : ℝ) := by
    push_cast
    ring
  rw [hcast, Int.fract_sub_int]

/-- C9: on any surface of positive dimensions, bumping the seed from 0 to 1
changes the index-0 sparkle coordinate pair: the y-coordinates differ because
their fractional parts differ (`0.6789` versus a value in `[0.074, 0.321]`). -/
theorem seed_sensitivity_index0 (width height : ℕ)
    (_hw : 1 ≤ width) (_hh : 1 ≤ height) :
    (sparkleX 0 1 width, sparkleY 0 1 height)
      ≠ (sparkleX 0 0 width, sparkleY 0 0 height) := by
  intro heq
  have hy : sparkleY 0 1 height = sparkleY 0 0 height := congrArg Prod.snd heq
  unfold sparkleY at hy
  have harg0 : ((0:ℕ):ℝ) * 78.233 + ((0:ℕ):ℝ) * 0.9 = 0 := by norm_num
  have harg1 : ((0:ℕ):ℝ) * 78.233 + ((1:ℕ):ℝ) * 0.9 = 0.9 := by norm_num
  rw [harg0, harg1, Real.cos_zero, one_mul] at hy
  have hcos := cos09_bounds
  have hpos : (0:ℝ) < Real.cos 0.9 := lt_of_lt_of_le (by norm_num) hcos.1
  have habs1 : |(12345.6789:ℝ)| = 12345.6789 := abs_of_nonneg (by norm_num)
  have habs2 : |Real.cos 0.9 * 12345.6789| = Real.cos 0.9 * 12345.6789 :=
    abs_of_nonneg (by positivity)
  rw [habs1, habs2] at hy
  have hf := congrArg Int.fract hy
  rw [jsMod_fract _ _ (by positivity), jsMod_fract _ _ (by norm_num)] at hf
  have hfr1 : Int.fract (12345.6789:ℝ) = 0.6789 := by
    have hfl : ⌊(12345.6789:ℝ)⌋ = 12345 := by
      rw [Int.floor_eq_iff]
      norm_num
    rw [Int.fract, hfl]
    norm_num
  have hge : (7674:ℝ) ≤ Real.cos 0.9 * 12345.6789 := by nlinarith [hcos.1]
  have hle : Real.cos 0.9 * 12345.6789 ≤ 7674.6 := by nlinarith [hcos.2]
  have hfl2 : ⌊Real.cos 0.9 * 12345.6789⌋ = 7674 := by
    rw [Int.floor_eq_iff]
    constructor
    · exact_mod_cast hge
    · push_cast
      linarith
  have hfr2 : Int.fract (Real.cos 0.9 * 12345.6789) ≤ 0.6 := by
    rw [Int.fract, hfl2]
    push_cast
    linarith
  rw [hfr1] at hf
  rw [hf] at hfr2
  norm_num at hfr2

/-- Witness for `seed_sensitivity_index0` at a 1 by 1 surface. -/
theorem seed_sensitivity_index0_check :
    1 ≤ (1:ℕ)
    ∧ (sparkleX 0 1 1, sparkleY 0 1 1) ≠ (sparkleX 0 0 1, sparkleY 0 0 1) :=
  ⟨by decide, seed_sensitivity_index0 1 1 (by decide) (by decide)⟩

end PaletteQuantizer
